import Mathlib

/-!
Verification of the tool-call interception and audit layer of the
`04-hooks` example (`src/examples/04-hooks/index.ts`).

The JavaScript regexes in `DANGEROUS_PATTERNS` are embedded via a small
regular-expression engine over `Char` with character classes, matched by
Brzozowski derivatives.  `RegExp.prototype.test` performs an unanchored
search, embedded here as a full match of `.* r .*` (`searchTest`).
-/

/-- Regular expressions over `Char`, with character classes (`cls`),
needed for the JS classes `\s`, `.`, `[rf]`, `[a-z]`. -/
inductive Regex where
  | fail
  | eps
  | cls (p : Char → Bool)
  | cat (r₁ r₂ : Regex)
  | alt (r₁ r₂ : Regex)
  | star (r : Regex)

/-- Does the regex accept the empty string? -/
def Regex.nullable : Regex → Bool
  | .fail => false
  | .eps => true
  | .cls _ => false
  | .cat r₁ r₂ => r₁.nullable && r₂.nullable
  | .alt r₁ r₂ => r₁.nullable || r₂.nullable
  | .star _ => true

/-- Brzozowski derivative of a regex with respect to a character. -/
def Regex.deriv : Regex → Char → Regex
  | .fail, _ => .fail
  | .eps, _ => .fail
  | .cls p, c => if p c then .eps else .fail
  | .cat r₁ r₂, c =>
      if r₁.nullable then .alt (.cat (r₁.deriv c) r₂) (r₂.deriv c)
      else .cat (r₁.deriv c) r₂
  | .alt r₁ r₂, c => .alt (r₁.deriv c) (r₂.deriv c)
  | .star r, c => .cat (r.deriv c) (.star r)

/-- Anchored (whole-string) match by iterated derivatives. -/
def Regex.rmatch : Regex → List Char → Bool
  | r, [] => r.nullable
  | r, c :: cs => (r.deriv c).rmatch cs

theorem rmatch_nil (r : Regex) : r.rmatch [] = r.nullable := rfl

theorem rmatch_cons (r : Regex) (c : Char) (cs : List Char) :
    r.rmatch (c :: cs) = (r.deriv c).rmatch cs := rfl

theorem fail_rmatch (s : List Char) : Regex.fail.rmatch s = false := by
  induction s with
  | nil => rfl
  | cons c cs ih => simpa [Regex.rmatch, Regex.deriv] using ih

theorem eps_rmatch_iff (s : List Char) : Regex.eps.rmatch s = true ↔ s = [] := by
  cases s with
  | nil => simp [Regex.rmatch, Regex.nullable]
  | cons c cs =>
    simp only [Regex.rmatch, Regex.deriv, fail_rmatch]
    simp

theorem alt_rmatch_iff (r₁ r₂ : Regex) (s : List Char) :
    (Regex.alt r₁ r₂).rmatch s = true ↔ r₁.rmatch s = true ∨ r₂.rmatch s = true := by
  induction s generalizing r₁ r₂ with
  | nil => simp [Regex.rmatch, Regex.nullable]
  | cons c cs ih => simpa [Regex.rmatch, Regex.deriv] using ih (r₁.deriv c) (r₂.deriv c)

theorem cat_rmatch_of (r₁ r₂ : Regex) (t u : List Char)
    (h₁ : r₁.rmatch t = true) (h₂ : r₂.rmatch u = true) :
    (Regex.cat r₁ r₂).rmatch (t ++ u) = true := by
  induction t generalizing r₁ with
  | nil =>
    -- `r₁` is nullable; show the concatenation accepts `u`.
    rw [rmatch_nil] at h₁
    rw [List.nil_append]
    cases u with
    | nil =>
      rw [rmatch_nil] at h₂
      simp [Regex.rmatch, Regex.nullable, h₁, h₂]
    | cons c cs =>
      rw [rmatch_cons, Regex.deriv, h₁]
      simp only [if_true]
      rw [alt_rmatch_iff]
      rw [rmatch_cons] at h₂
      exact Or.inr h₂
  | cons c t' ih =>
    rw [rmatch_cons] at h₁
    rw [List.cons_append, rmatch_cons, Regex.deriv]
    by_cases hn : r₁.nullable
    · simp only [hn, if_true]
      rw [alt_rmatch_iff]
      exact Or.inl (ih (r₁.deriv c) h₁)
    · simp only [Bool.not_eq_true] at hn
      simp only [hn, Bool.false_eq_true, if_false]
      exact ih (r₁.deriv c) h₁

theorem cat_rmatch_iff (r₁ r₂ : Regex) (s : List Char) :
    (Regex.cat r₁ r₂).rmatch s = true ↔
      ∃ t u, s = t ++ u ∧ r₁.rmatch t = true ∧ r₂.rmatch u = true := by
  constructor
  · intro h
    induction s generalizing r₁ with
    | nil =>
      rw [rmatch_nil, Regex.nullable, Bool.and_eq_true] at h
      exact ⟨[], [], rfl, h.1, h.2⟩
    | cons c cs ih =>
      rw [rmatch_cons, Regex.deriv] at h
      by_cases hn : r₁.nullable
      · simp only [hn, if_true] at h
        rw [alt_rmatch_iff] at h
        rcases h with h | h
        · obtain ⟨t, u, hs, ht, hu⟩ := ih (r₁.deriv c) h
          exact ⟨c :: t, u, by rw [hs, List.cons_append], by rw [rmatch_cons]; exact ht, hu⟩
        · exact ⟨[], c :: cs, rfl, by rw [rmatch_nil]; exact hn, h⟩
      · simp only [Bool.not_eq_true] at hn
        simp only [hn, Bool.false_eq_true, if_false] at h
        obtain ⟨t, u, hs, ht, hu⟩ := ih (r₁.deriv c) h
        exact ⟨c :: t, u, by rw [hs, List.cons_append], by rw [rmatch_cons]; exact ht, hu⟩
  · rintro ⟨t, u, rfl, ht, hu⟩
    exact cat_rmatch_of r₁ r₂ t u ht hu

/-- The class accepting every character. -/
def anyChar : Regex := .cls (fun _ => true)

theorem star_any_rmatch (s : List Char) : (Regex.star anyChar).rmatch s = true := by
  induction s with
  | nil => rfl
  | cons c cs ih =>
    rw [rmatch_cons, Regex.deriv]
    have : (anyChar.deriv c) = Regex.eps := by simp [anyChar, Regex.deriv]
    rw [this]
    exact cat_rmatch_of .eps (.star anyChar) [] cs rfl ih

/-! ## JS character classes and pattern syntax

`isSpaceJS` is the ECMAScript `\s` class (WhiteSpace ∪ LineTerminator);
`isDotJS` is the un-flagged `.` (any character except a line terminator);
`searchTest` embeds `RegExp.prototype.test` (unanchored search). -/

/-- ECMAScript character class `\s`. -/
def isSpaceJS (c : Char) : Bool :=
  let n := c.toNat
  n == 0x09 || n == 0x0A || n == 0x0B || n == 0x0C || n == 0x0D || n == 0x20 ||
  n == 0xA0 || n == 0x1680 || (decide (0x2000 ≤ n) && decide (n ≤ 0x200A)) ||
  n == 0x2028 || n == 0x2029 || n == 0x202F || n == 0x205F || n == 0x3000 || n == 0xFEFF

/-- ECMAScript `.` without the `s` flag: any character except a line terminator. -/
def isDotJS (c : Char) : Bool :=
  let n := c.toNat
  !(n == 0x0A || n == 0x0D || n == 0x2028 || n == 0x2029)

/-- A single literal character. -/
def chr (c : Char) : Regex := .cls (fun d => d == c)

/-- A literal string of characters. -/
def strR (s : String) : Regex := s.data.foldr (fun c r => .cat (chr c) r) .eps

/-- The `+` quantifier: one or more repetitions. -/
def plus1 (r : Regex) : Regex := .cat r (.star r)

/-- `\s` as a regex. -/
def wsR : Regex := .cls isSpaceJS

/-- `.*` as a regex (un-flagged JS dot). -/
def dotStar : Regex := .star (.cls isDotJS)

/-- Unanchored search, as performed by `RegExp.prototype.test`:
the whole string matches `.* r .*` (with a true wildcard, since a match
may start or end anywhere, line terminators included). -/
def searchTest (r : Regex) (s : String) : Bool :=
  (Regex.cat (.star anyChar) (.cat r (.star anyChar))).rmatch s.data

theorem searchTest_iff (r : Regex) (s : String) :
    searchTest r s = true ↔
      ∃ t m u, s.data = t ++ m ++ u ∧ r.rmatch m = true := by
  unfold searchTest
  rw [cat_rmatch_iff]
  constructor
  · rintro ⟨t, v, hs, _, hv⟩
    rw [cat_rmatch_iff] at hv
    obtain ⟨m, u, hv2, hm, _⟩ := hv
    exact ⟨t, m, u, by rw [hs, hv2, List.append_assoc], hm⟩
  · rintro ⟨t, m, u, hs, hm⟩
    refine ⟨t, m ++ u, by rw [hs, List.append_assoc], star_any_rmatch t, ?_⟩
    rw [cat_rmatch_iff]
    exact ⟨m, u, rfl, hm, star_any_rmatch u⟩

/-! ## DANGEROUS_PATTERNS (`src/examples/04-hooks/index.ts` lines 45-68) -/

/-- One entry of `DANGEROUS_PATTERNS`: a compiled regex and its description. -/
structure DangerousPattern where
  pattern : Regex
  description : String

/-- `/rm\s+(-[rf]+\s+)*\//`. -/
def rmPathPattern : DangerousPattern :=
  ⟨.cat (strR "rm") (.cat (plus1 wsR)
      (.cat (.star (.cat (chr '-') (.cat (plus1 (.cls (fun c => c == 'r' || c == 'f')))
        (plus1 wsR)))) (chr '/'))),
   "rm with absolute path"⟩

/-- `/rm\s+-rf\s+/`. -/
def rmRfPattern : DangerousPattern :=
  ⟨.cat (strR "rm") (.cat (plus1 wsR) (.cat (strR "-rf") (plus1 wsR))),
   "rm -rf (recursive force delete)"⟩

/-- `/rmdir\s+\//`. -/
def rmdirPattern : DangerousPattern :=
  ⟨.cat (strR "rmdir") (.cat (plus1 wsR) (chr '/')),
   "rmdir with absolute path"⟩

/-- `/chmod\s+777/`. -/
def chmod777Pattern : DangerousPattern :=
  ⟨.cat (strR "chmod") (.cat (plus1 wsR) (strR "777")),
   "chmod 777 (insecure permissions)"⟩

/-- `/mkfs\./`. -/
def mkfsPattern : DangerousPattern :=
  ⟨strR "mkfs.",
   "mkfs (format filesystem)"⟩

/-- `/dd\s+if=.*of=\/dev\//`. -/
def ddPattern : DangerousPattern :=
  ⟨.cat (strR "dd") (.cat (plus1 wsR) (.cat (strR "if=") (.cat dotStar (strR "of=/dev/")))),
   "dd to device"⟩

/-- `/curl.*\|\s*sh/`. -/
def curlShPattern : DangerousPattern :=
  ⟨.cat (strR "curl") (.cat dotStar (.cat (chr '|') (.cat (.star wsR) (strR "sh")))),
   "curl pipe to shell"⟩

/-- `/wget.*\|\s*sh/`. -/
def wgetShPattern : DangerousPattern :=
  ⟨.cat (strR "wget") (.cat dotStar (.cat (chr '|') (.cat (.star wsR) (strR "sh")))),
   "wget pipe to shell"⟩

/-- `/cat\s+.*\.ssh\//`. -/
def sshKeysPattern : DangerousPattern :=
  ⟨.cat (strR "cat") (.cat (plus1 wsR) (.cat dotStar (strR ".ssh/"))),
   "reading SSH keys"⟩

/-- `/cat\s+.*\/etc\/passwd/`. -/
def passwdPattern : DangerousPattern :=
  ⟨.cat (strR "cat") (.cat (plus1 wsR) (.cat dotStar (strR "/etc/passwd"))),
   "reading passwd file"⟩

/-- `/cat\s+.*\/etc\/shadow/`. -/
def shadowPattern : DangerousPattern :=
  ⟨.cat (strR "cat") (.cat (plus1 wsR) (.cat dotStar (strR "/etc/shadow"))),
   "reading shadow file"⟩

/-- `/:\(\)\s*\{.*\}/` (braces are the literal brace characters). -/
def forkBombPattern : DangerousPattern :=
  ⟨.cat (strR ":()") (.cat (.star wsR) (.cat (chr '\x7b') (.cat dotStar (chr '\x7d')))),
   "fork bomb"⟩

/-- `/>\s*\/dev\/sd[a-z]/`. -/
def rawDevicePattern : DangerousPattern :=
  ⟨.cat (chr '>') (.cat (.star wsR) (.cat (strR "/dev/sd")
      (.cls (fun c => decide (0x61 ≤ c.toNat) && decide (c.toNat ≤ 0x7A))))),
   "writing to raw device"⟩

/-- `DANGEROUS_PATTERNS` from the source (lines 45-68), in order.  Each JS
literal regex is translated constructor-by-constructor; `\/` and `\.` are
literal characters. -/
def DANGEROUS_PATTERNS : List DangerousPattern :=
  [rmPathPattern, rmRfPattern, rmdirPattern, chmod777Pattern, mkfsPattern, ddPattern,
   curlShPattern, wgetShPattern, sshKeysPattern, passwdPattern, shadowPattern,
   forkBombPattern, rawDevicePattern]

/-- The result type of `checkDangerousCommand`. -/
structure CheckResult where
  blocked : Bool
  reason : Option String
deriving DecidableEq

/-- The loop body of `checkDangerousCommand`: scan the pattern list in order,
returning the first matching entry's description. -/
def checkDangerousCommandGo : List DangerousPattern → String → CheckResult
  | [], _ => ⟨false, none⟩
  | p :: ps, command =>
      if searchTest p.pattern command then ⟨true, some p.description⟩
      else checkDangerousCommandGo ps command

/-- `checkDangerousCommand` (`index.ts` lines 70-77). -/
def checkDangerousCommand (command : String) : CheckResult :=
  checkDangerousCommandGo DANGEROUS_PATTERNS command

theorem checkGo_blocked_iff (ps : List DangerousPattern) (cmd : String) :
    (checkDangerousCommandGo ps cmd).blocked = true ↔
      ∃ p ∈ ps, searchTest p.pattern cmd = true := by
  induction ps with
  | nil => simp [checkDangerousCommandGo]
  | cons p ps ih =>
    by_cases h : searchTest p.pattern cmd = true
    · simp [checkDangerousCommandGo, h]
    · simp only [Bool.not_eq_true] at h
      simp [checkDangerousCommandGo, h, ih]

theorem checkGo_clean_iff (ps : List DangerousPattern) (cmd : String) :
    checkDangerousCommandGo ps cmd = ⟨false, none⟩ ↔
      ∀ p ∈ ps, searchTest p.pattern cmd = false := by
  induction ps with
  | nil => simp [checkDangerousCommandGo]
  | cons p ps ih =>
    by_cases h : searchTest p.pattern cmd = true
    · simp [checkDangerousCommandGo, h]
    · simp only [Bool.not_eq_true] at h
      simp [checkDangerousCommandGo, h, ih]

theorem checkGo_of_mem_match (ps : List DangerousPattern) (cmd : String)
    (h : ∃ p ∈ ps, searchTest p.pattern cmd = true) :
    ∃ desc, checkDangerousCommandGo ps cmd = ⟨true, some desc⟩ ∧
      ∃ p ∈ ps, p.description = desc ∧ searchTest p.pattern cmd = true := by
  induction ps with
  | nil => simp at h
  | cons p ps ih =>
    by_cases hp : searchTest p.pattern cmd = true
    · exact ⟨p.description, by simp [checkDangerousCommandGo, hp],
        p, List.mem_cons_self p ps, rfl, hp⟩
    · simp only [Bool.not_eq_true] at hp
      have h' : ∃ q ∈ ps, searchTest q.pattern cmd = true := by
        rcases h with ⟨q, hq, hmatch⟩
        rcases List.mem_cons.mp hq with rfl | hq'
        · rw [hp] at hmatch; exact absurd hmatch (by simp)
        · exact ⟨q, hq', hmatch⟩
      obtain ⟨desc, hgo, q, hq, hdesc, hmatch⟩ := ih h'
      exact ⟨desc, by simp [checkDangerousCommandGo, hp, hgo],
        q, List.mem_cons_of_mem p hq, hdesc, hmatch⟩

/-! ## JS `Map` operations

`toolStartTimes` is a JS `Map<string, number>`; a `Map` keeps at most one
entry per key, embedded here as an insertion-ordered association list.
`set` replaces the value of an existing key in place, `get` looks up,
`delete` removes the key (as keys are unique in a `Map`, removing every
occurrence coincides with removing the one entry). -/

def mapGet {β : Type} : List (String × β) → String → Option β
  | [], _ => none
  | (k, v) :: rest, key => if k = key then some v else mapGet rest key

def mapSet {β : Type} : List (String × β) → String → β → List (String × β)
  | [], key, val => [(key, val)]
  | (k, v) :: rest, key, val =>
      if k = key then (k, val) :: rest else (k, v) :: mapSet rest key val

def mapDelete {β : Type} (m : List (String × β)) (key : String) : List (String × β) :=
  m.filter (fun kv => decide (kv.1 ≠ key))

theorem mapGet_mapSet_self {β : Type} (m : List (String × β)) (k : String) (v : β) :
    mapGet (mapSet m k v) k = some v := by
  induction m with
  | nil => simp [mapGet, mapSet]
  | cons kv rest ih =>
    by_cases h : kv.1 = k
    · simp [mapGet, mapSet, h]
    · simp [mapGet, mapSet, h, ih]

theorem mapGet_mapDelete_self {β : Type} (m : List (String × β)) (k : String) :
    mapGet (mapDelete m k) k = none := by
  induction m with
  | nil => rfl
  | cons kv rest ih =>
    by_cases h : kv.1 = k
    · simpa [mapDelete, List.filter, h] using ih
    · simpa [mapDelete, List.filter, h, mapGet] using ih

/-! ## Correlation store (`toolStartTimes`, `index.ts` lines 30, 100, 166-168) -/

/-- `begin`: line 100, `toolStartTimes.set(toolUseId, Date.now())`.
Note the source sets unconditionally — an existing record is overwritten. -/
def beginInvocation (m : List (String × Nat)) (toolUseId : String) (now : Nat) :
    List (String × Nat) :=
  mapSet m toolUseId now

/-- `end`: lines 166-168 of `postToolUseHook`.
`const duration = startTime ? Date.now() - startTime : undefined` — by JS
truthiness the duration is absent both when no record exists and when the
stored start time is `0`; then `toolStartTimes.delete(toolUseId)`. -/
def endInvocation (m : List (String × Nat)) (toolUseId : String) (now : Nat) :
    Option Int × List (String × Nat) :=
  let startTime := mapGet m toolUseId
  let duration : Option Int :=
    match startTime with
    | some s => if s = 0 then none else some ((now : Int) - (s : Int))
    | none => none
  (duration, mapDelete m toolUseId)

/-! ## Hook data model (`index.ts` lines 18-38, 93-202) -/

/-- Audit phases `"pre" | "post"`. -/
inductive Phase where
  | pre
  | post
deriving DecidableEq

/-- The `tool_input` payload fields the example reads (`command` for Bash,
`file_path` for Write/Edit); a missing field is `none`. -/
structure ToolInput where
  command : Option String
  file_path : Option String
deriving DecidableEq

/-- The hook `input` argument: `tool_name` and optional `tool_input`. -/
structure HookInput where
  tool_name : String
  tool_input : Option ToolInput
deriving DecidableEq

/-- `AuditEntry` (lines 18-27).  The optional JS fields `blocked`/`duration`/
`blockReason`/`input` are embedded as `Bool` (absent ≡ `false` under every
truthiness test in the source) and `Option`. -/
structure AuditEntry where
  timestamp : String
  toolName : String
  toolUseId : String
  phase : Phase
  input : Option ToolInput
  duration : Option Int
  blocked : Bool
  blockReason : Option String
deriving DecidableEq

/-- The mutable module state: `auditTrail` (line 29) and `toolStartTimes`
(line 30). -/
structure HookState where
  auditTrail : List AuditEntry
  toolStartTimes : List (String × Nat)
deriving DecidableEq

/-- A hook's return value: `{}` (continue) or a
`hookSpecificOutput.permissionDecision: "deny"` object with its reason. -/
inductive HookOutput where
  | empty
  | deny (reason : String)
deriving DecidableEq

/-- `PolicyDecision` (spec section 3): the outcome the runtime observes. -/
inductive Decision where
  | allow
  | deny (reason : String)
deriving DecidableEq

/-- `preToolUseHook` (lines 93-150).  Console output is dropped; `timestamp`
(the formatted wall clock) and `now` (`Date.now()`) are parameters.  The
guard `toolName === "Bash" && input.tool_input?.command` requires a present,
non-empty (truthy) command. -/
def preToolUseHook (st : HookState) (input : HookInput) (toolUseId : String)
    (timestamp : String) (now : Nat) : HookState × HookOutput :=
  let toolName := input.tool_name
  let times := beginInvocation st.toolStartTimes toolUseId now
  let bashCommand : Option String :=
    if toolName = "Bash" then
      match input.tool_input.bind (fun ti => ti.command) with
      | some c => if c = "" then none else some c
      | none => none
    else none
  match bashCommand with
  | some command =>
      let res := checkDangerousCommand command
      if res.blocked then
        (⟨st.auditTrail ++ [⟨timestamp, toolName, toolUseId, .pre,
            some ⟨some (command.take 100), none⟩, none, true, res.reason⟩], times⟩,
         .deny ("Blocked dangerous command: " ++ res.reason.getD "undefined"))
      else
        (⟨st.auditTrail ++ [⟨timestamp, toolName, toolUseId, .pre,
            input.tool_input, none, false, none⟩], times⟩, .empty)
  | none =>
      (⟨st.auditTrail ++ [⟨timestamp, toolName, toolUseId, .pre,
          input.tool_input, none, false, none⟩], times⟩, .empty)

/-- `postToolUseHook` (lines 161-181): compute the optional duration from the
correlation store, delete the record, append a POST audit entry. -/
def postToolUseHook (st : HookState) (input : HookInput) (toolUseId : String)
    (timestamp : String) (now : Nat) : HookState × HookOutput :=
  let r := endInvocation st.toolStartTimes toolUseId now
  (⟨st.auditTrail ++ [⟨timestamp, input.tool_name, toolUseId, .post, none, r.1, false, none⟩],
    r.2⟩, .empty)

/-- `fileWriteHook` (lines 188-202): console output only, no state effect,
always returns `{}`. -/
def fileWriteHook (st : HookState) (_input : HookInput) (_toolUseId : String) :
    HookState × HookOutput :=
  (st, .empty)

/-- One full invocation, following the runtime data flow of spec section 2:
PRE fires; the tool executes and POST fires only if PRE allowed (a denied
invocation gets no POST event). -/
def runInvocation (st : HookState) (input : HookInput) (toolUseId : String)
    (ts₁ : String) (now₁ : Nat) (ts₂ : String) (now₂ : Nat) : HookState × Decision :=
  let r := preToolUseHook st input toolUseId ts₁ now₁
  match r.2 with
  | .deny reason => (r.1, .deny reason)
  | .empty => ((postToolUseHook r.1 input toolUseId ts₂ now₂).1, .allow)

/-! ## Audit summary (`index.ts` lines 309-319) -/

/-- The aggregates printed by the audit-summary loop. -/
structure Summary where
  toolCounts : List (String × Nat)
  blockedCount : Nat
  totalDuration : Int
deriving DecidableEq

/-- The body of the summary loop: POST entries feed the per-tool counts and
(truthy durations only) the total duration; every entry's truthy `blocked`
flag feeds the blocked count. -/
def summarizeStep (s : Summary) (e : AuditEntry) : Summary :=
  let s :=
    if e.phase = Phase.post then
      let counts := mapSet s.toolCounts e.toolName ((mapGet s.toolCounts e.toolName).getD 0 + 1)
      let total :=
        match e.duration with
        | some d => if d = 0 then s.totalDuration else s.totalDuration + d
        | none => s.totalDuration
      ⟨counts, s.blockedCount, total⟩
    else s
  if e.blocked then ⟨s.toolCounts, s.blockedCount + 1, s.totalDuration⟩ else s

/-- The audit-summary computation: a pure fold over the audit trail. -/
def summarize (trail : List AuditEntry) : Summary :=
  trail.foldl summarizeStep ⟨[], 0, 0⟩

/-! ## Spec-modelled dispatcher components

The hook-chain dispatcher, the policy-decision combinator and the pattern
registry live in the external `@anthropic-ai/claude-agent-sdk` package and
are not part of this repository's sources; they are modelled here from the
spec (sections 4.1, 4.2, 4.4 and 7). -/

/-- Modelled from the spec (section 4.4, Policy Decision Combinator — the
implementation is in the external SDK): reduce the ordered results of a PRE
hook chain to the first `DENY` encountered, or `ALLOW` if none. -/
def combineDecisions : List HookOutput → Decision
  | [] => .allow
  | .empty :: rest => combineDecisions rest
  | .deny r :: _ => .deny r

/-- Modelled from the spec (section 4.2, Hook Dispatcher — the implementation
is in the external SDK): invoke the hooks of a chain one at a time; the first
deny terminates the chain immediately.  Returns the combined decision together
with the number of hooks actually invoked. -/
def runChain {α : Type} : List (α → HookOutput) → α → Decision × Nat
  | [], _ => (.allow, 0)
  | h :: rest, e =>
      match h e with
      | .deny r => (.deny r, 1)
      | .empty =>
          let r := runChain rest e
          (r.1, r.2 + 1)

/-- Modelled from the spec (section 7, hook execution fault — the
implementation is in the external SDK): a hook that raises an unexpected
failure instead of returning a decision resolves to a fail-closed DENY with
reason "hook execution failed"; the failure is appended to the log, and the
dispatcher itself always returns a decision (faults never propagate). -/
def dispatchPre {α : Type} : List (α → Except String HookOutput) → α → Decision × List String
  | [], _ => (.allow, [])
  | h :: rest, e =>
      match h e with
      | .error msg => (.deny "hook execution failed", ["hook execution failed: " ++ msg])
      | .ok (.deny r) => (.deny r, [])
      | .ok .empty => dispatchPre rest e

/-- A hook registration (spec section 3): an optional compiled matcher over
the tool name and the ordered hook callables (referenced here by name). -/
structure HookRegistration where
  matcher : Option Regex
  hooks : List String

/-- Modelled from the spec (section 4.1, Pattern Registry — the implementation
is in the external SDK): return every registration whose matcher is absent or
matches the tool name, in registration order; matching is an exact
regular-expression match against the whole tool name. -/
def resolve (regs : List HookRegistration) (toolName : String) : List HookRegistration :=
  regs.filter (fun r =>
    match r.matcher with
    | none => true
    | some pat => pat.rmatch toolName.data)

/-- The compiled matcher `"Write|Edit"` of the repository's configuration
(`index.ts` line 247). -/
def writeEditMatcher : Regex := .alt (strR "Write") (strR "Edit")

/-- The `PreToolUse` registrations of `index.ts` lines 241-248: a global
(matcher-less) registration with `preToolUseHook`, then a `"Write|Edit"`
registration with `fileWriteHook`. -/
def hooksConfigPre : List HookRegistration :=
  [⟨none, ["preToolUseHook"]⟩, ⟨some writeEditMatcher, ["fileWriteHook"]⟩]

/-- The `PostToolUse` registrations of `index.ts` line 251. -/
def hooksConfigPost : List HookRegistration :=
  [⟨none, ["postToolUseHook"]⟩]

/-! ## Helper lemmas -/

theorem mapGet_mapSet_ne {β : Type} (m : List (String × β)) (k k' : String) (v : β)
    (h : k ≠ k') : mapGet (mapSet m k v) k' = mapGet m k' := by
  induction m with
  | nil => simp [mapGet, mapSet, h]
  | cons kv rest ih =>
    by_cases hk : kv.1 = k
    · simp [mapGet, mapSet, hk, h]
    · simp only [mapSet, hk, if_false, mapGet]
      by_cases hk' : kv.1 = k'
      · simp [hk']
      · simp [hk', ih]

theorem preToolUse_times (st : HookState) (input : HookInput) (tid ts : String) (now : Nat) :
    ((preToolUseHook st input tid ts now).1).toolStartTimes =
      beginInvocation st.toolStartTimes tid now := by
  simp only [preToolUseHook]
  repeat' split
  all_goals rfl

theorem postToolUse_times (st : HookState) (input : HookInput) (tid ts : String) (now : Nat) :
    ((postToolUseHook st input tid ts now).1).toolStartTimes =
      mapDelete st.toolStartTimes tid := rfl

/-! ## Claim theorems -/

/-- C3: for every invocation id on which `begin` was called and then `end`
is called (with the real clock: a positive epoch-milliseconds start time and
a later end time), `end` returns a duration ≥ 0 and removes the correlation
record, so a second `end` on the same id returns null; and `end` on an id
with no record returns null. -/
theorem beginEnd_duration (m : List (String × Nat)) (tid : String) (t₁ t₂ t₃ : Nat)
    (h₀ : 0 < t₁) (h₁ : t₁ ≤ t₂) :
    (endInvocation (beginInvocation m tid t₁) tid t₂).1 = some ((t₂ : Int) - (t₁ : Int)) ∧
    0 ≤ ((t₂ : Int) - (t₁ : Int)) ∧
    mapGet (endInvocation (beginInvocation m tid t₁) tid t₂).2 tid = none ∧
    (endInvocation (endInvocation (beginInvocation m tid t₁) tid t₂).2 tid t₃).1 = none ∧
    (∀ (m' : List (String × Nat)) (tid' : String) (t' : Nat),
      mapGet m' tid' = none → (endInvocation m' tid' t').1 = none) := by
  have hget : mapGet (beginInvocation m tid t₁) tid = some t₁ :=
    mapGet_mapSet_self m tid t₁
  have hne : t₁ ≠ 0 := Nat.pos_iff_ne_zero.mp h₀
  have hdel : mapGet (endInvocation (beginInvocation m tid t₁) tid t₂).2 tid = none := by
    simp only [endInvocation]
    exact mapGet_mapDelete_self _ tid
  refine ⟨?_, ?_, hdel, ?_, ?_⟩
  · simp [endInvocation, hget, hne]
  · simpa using Int.ofNat_le.mpr h₁
  · simp [endInvocation, mapGet_mapDelete_self]
  · intro m' tid' t' hnone
    simp [endInvocation, hnone]

/-- C3 witness. -/
theorem beginEnd_duration_witness :
    0 < 1 ∧ 1 ≤ 2 ∧
    ((endInvocation (beginInvocation [] "t1" 1) "t1" 2).1 = some ((2 : Int) - (1 : Int)) ∧
    0 ≤ ((2 : Int) - (1 : Int)) ∧
    mapGet (endInvocation (beginInvocation [] "t1" 1) "t1" 2).2 "t1" = none ∧
    (endInvocation (endInvocation (beginInvocation [] "t1" 1) "t1" 2).2 "t1" 3).1 = none ∧
    (∀ (m' : List (String × Nat)) (tid' : String) (t' : Nat),
      mapGet m' tid' = none → (endInvocation m' tid' t').1 = none)) :=
  ⟨by decide, by decide, beginEnd_duration [] "t1" 1 2 3 (by decide) (by decide)⟩

/-- C5 counterexample: a second `begin` (line 100, an unconditional
`Map.set`) on the same invocation id does not leave the original start
timestamp in place — it overwrites it. -/
theorem duplicateBegin_counterexample :
    mapGet ((preToolUseHook (preToolUseHook ⟨[], []⟩ ⟨"Read", none⟩ "t1" "a" 5).1
        ⟨"Read", none⟩ "t1" "b" 9).1).toolStartTimes "t1" = some 9 ∧
    mapGet ((preToolUseHook (preToolUseHook ⟨[], []⟩ ⟨"Read", none⟩ "t1" "a" 5).1
        ⟨"Read", none⟩ "t1" "b" 9).1).toolStartTimes "t1" ≠ some 5 := by
  constructor
  · decide
  · decide

/-- C5 amended: a second `begin` call on an id that already has a
correlation record does not fail silently leaving the record unchanged;
every `preToolUseHook` call unconditionally (re)sets the record to the new
start timestamp. -/
theorem duplicateBegin_overwrites (st : HookState) (input : HookInput)
    (tid ts : String) (now : Nat) :
    mapGet ((preToolUseHook st input tid ts now).1).toolStartTimes tid = some now := by
  rw [preToolUse_times]
  exact mapGet_mapSet_self st.toolStartTimes tid now

/-- C10: the POST-phase duration is absent not only when no start record
exists but also when the stored start time is 0 (the truthiness guard on
line 167 conflates the two); for a stored start time s > 0 the recorded
duration equals the current time minus s, and the appended POST audit entry
carries exactly that duration. -/
theorem postDuration_truthiness (m : List (String × Nat)) (tid : String) (now : Nat) :
    (mapGet m tid = none → (endInvocation m tid now).1 = none) ∧
    (mapGet m tid = some 0 → (endInvocation m tid now).1 = none) ∧
    (∀ s : Nat, mapGet m tid = some s → 0 < s →
      (endInvocation m tid now).1 = some ((now : Int) - (s : Int))) ∧
    (∀ (st : HookState) (input : HookInput) (ts : String),
      st.toolStartTimes = m →
      (postToolUseHook st input tid ts now).1.auditTrail =
        st.auditTrail ++ [⟨ts, input.tool_name, tid, .post, none,
          (endInvocation m tid now).1, false, none⟩]) := by
  refine ⟨?_, ?_, ?_, ?_⟩
  · intro h; simp [endInvocation, h]
  · intro h; simp [endInvocation, h]
  · intro s h hs
    have : s ≠ 0 := Nat.pos_iff_ne_zero.mp hs
    simp [endInvocation, h, this]
  · intro st input ts hst
    subst hst
    rfl

/-- C10 witness. -/
theorem postDuration_truthiness_witness :
    (endInvocation [] "a" 9).1 = none ∧
    (endInvocation [("a", 0)] "a" 9).1 = none ∧
    (endInvocation [("a", 5)] "a" 9).1 = some ((9 : Int) - (5 : Int)) ∧
    (postToolUseHook ⟨[], [("a", 5)]⟩ ⟨"Bash", none⟩ "a" "ts" 9).1.auditTrail =
      [⟨"ts", "Bash", "a", .post, none, (endInvocation [("a", 5)] "a" 9).1, false, none⟩] :=
  ⟨(postDuration_truthiness [] "a" 9).1 (by decide),
   (postDuration_truthiness [("a", 0)] "a" 9).2.1 (by decide),
   (postDuration_truthiness [("a", 5)] "a" 9).2.2.1 5 (by decide) (by decide),
   by simpa using (postDuration_truthiness [("a", 5)] "a" 9).2.2.2 ⟨[], [("a", 5)]⟩ ⟨"Bash", none⟩ "ts" rfl⟩

/-- C6 counterexample: the invocation of `"Bash"` with command `"rm -rf /"`
is denied at PRE (so no POST event follows), yet after the invocation
finishes its correlation record is still in the store — the record set on
line 100 before the dangerous-command check is never consumed. -/
theorem correlationLeak_counterexample :
    (runInvocation ⟨[], []⟩ ⟨"Bash", some ⟨some "rm -rf /", none⟩⟩ "t1" "a" 5 "b" 9).2 =
      Decision.deny "Blocked dangerous command: rm with absolute path" ∧
    mapGet (runInvocation ⟨[], []⟩ ⟨"Bash", some ⟨some "rm -rf /", none⟩⟩
        "t1" "a" 5 "b" 9).1.toolStartTimes "t1" = some 5 := by
  constructor
  · decide
  · decide

/-- C6 amended: a correlation record created at the pre-phase is consumed
and removed at the post-phase, so after an invocation that was allowed (and
hence reached POST) no record for its id remains — but an invocation denied
at PRE, for which no POST event follows, leaves its record in the store. -/
theorem correlationRecord_lifecycle (st : HookState) (input : HookInput) (tid : String)
    (ts₁ : String) (now₁ : Nat) (ts₂ : String) (now₂ : Nat) :
    ((runInvocation st input tid ts₁ now₁ ts₂ now₂).2 = Decision.allow →
      mapGet (runInvocation st input tid ts₁ now₁ ts₂ now₂).1.toolStartTimes tid = none) ∧
    (∀ r, (runInvocation st input tid ts₁ now₁ ts₂ now₂).2 = Decision.deny r →
      mapGet (runInvocation st input tid ts₁ now₁ ts₂ now₂).1.toolStartTimes tid = some now₁) := by
  cases hpre : (preToolUseHook st input tid ts₁ now₁).2 with
  | empty =>
    refine ⟨fun _ => ?_, fun r hr => ?_⟩
    · simp only [runInvocation, hpre, postToolUse_times]
      exact mapGet_mapDelete_self _ tid
    · simp [runInvocation, hpre] at hr
  | deny reason =>
    refine ⟨fun hr => ?_, fun r hr => ?_⟩
    · simp [runInvocation, hpre] at hr
    · simp only [runInvocation, hpre, preToolUse_times]
      exact mapGet_mapSet_self st.toolStartTimes tid now₁

/-- C6 amended witness. -/
theorem correlationRecord_lifecycle_witness :
    mapGet (runInvocation ⟨[], []⟩ ⟨"Read", none⟩ "t1" "a" 3 "b" 7).1.toolStartTimes "t1" = none ∧
    mapGet (runInvocation ⟨[], []⟩ ⟨"Bash", some ⟨some "rm -rf /", none⟩⟩
        "t2" "a" 5 "b" 9).1.toolStartTimes "t2" = some 5 :=
  ⟨(correlationRecord_lifecycle ⟨[], []⟩ ⟨"Read", none⟩ "t1" "a" 3 "b" 7).1 (by decide),
   (correlationRecord_lifecycle ⟨[], []⟩ ⟨"Bash", some ⟨some "rm -rf /", none⟩⟩
      "t2" "a" 5 "b" 9).2 "Blocked dangerous command: rm with absolute path" (by decide)⟩

/-- C1: for every PRE event with tool name `"Bash"` whose payload command
contains the substring `"rm -rf "` (followed by anything, in particular a
path), `preToolUseHook` returns a deny whose reason names the matched
dangerous pattern's description, and exactly one audit entry is appended
for the invocation, with phase PRE and `blocked = true`. -/
theorem preToolUse_rm_rf_denied (st : HookState) (toolUseId ts : String) (now : Nat)
    (cmd : String) (pre post : List Char)
    (h : cmd.data = pre ++ ("rm -rf ").data ++ post) :
    ∃ desc,
      preToolUseHook st ⟨"Bash", some ⟨some cmd, none⟩⟩ toolUseId ts now =
        (⟨st.auditTrail ++ [⟨ts, "Bash", toolUseId, .pre,
            some ⟨some (cmd.take 100), none⟩, none, true, some desc⟩],
          beginInvocation st.toolStartTimes toolUseId now⟩,
         .deny ("Blocked dangerous command: " ++ desc)) ∧
      ∃ p ∈ DANGEROUS_PATTERNS, p.description = desc ∧ searchTest p.pattern cmd = true := by
  have hne : cmd ≠ "" := by
    intro hcmd
    subst hcmd
    have hl := congrArg List.length h
    simp [List.length_append] at hl
    omega
  have hmem : ∃ p ∈ DANGEROUS_PATTERNS, searchTest p.pattern cmd = true := by
    refine ⟨rmRfPattern, ?_, ?_⟩
    · unfold DANGEROUS_PATTERNS
      exact List.mem_cons_of_mem _ (List.mem_cons_self _ _)
    · exact (searchTest_iff _ _).mpr ⟨pre, _, post, h, by decide⟩
  obtain ⟨desc, hgo, hrest⟩ := checkGo_of_mem_match DANGEROUS_PATTERNS cmd hmem
  have hres : checkDangerousCommand cmd = ⟨true, some desc⟩ := hgo
  refine ⟨desc, ?_, hrest⟩
  simp only [preToolUseHook]
  simp [hne, hres]

/-- C1 witness. -/
theorem preToolUse_rm_rf_denied_witness :
    ("rm -rf /").data = ([] : List Char) ++ ("rm -rf ").data ++ ['/'] ∧
    (∃ desc,
      preToolUseHook ⟨[], []⟩ ⟨"Bash", some ⟨some "rm -rf /", none⟩⟩ "t1" "ts" 5 =
        (⟨[] ++ [⟨"ts", "Bash", "t1", .pre,
            some ⟨some (("rm -rf /").take 100), none⟩, none, true, some desc⟩],
          beginInvocation [] "t1" 5⟩,
         .deny ("Blocked dangerous command: " ++ desc)) ∧
      ∃ p ∈ DANGEROUS_PATTERNS, p.description = desc ∧ searchTest p.pattern "rm -rf /" = true) :=
  ⟨by decide, preToolUse_rm_rf_denied ⟨[], []⟩ "t1" "ts" 5 "rm -rf /" [] ['/'] (by decide)⟩

/-- C2: the combined decision of an ordered chain of hook results is the
first DENY encountered (with its reason), or ALLOW if none; the dispatcher
stops at the first DENY, invoking no later hook; and
`checkDangerousCommand` returns the description of the first pattern in
`DANGEROUS_PATTERNS` order that matches, independently of all later
patterns. -/
theorem firstDeny_shortCircuit :
    (∀ (rs₁ : List HookOutput) (r : String) (rs₂ : List HookOutput),
      (∀ x ∈ rs₁, x = HookOutput.empty) →
      combineDecisions (rs₁ ++ HookOutput.deny r :: rs₂) = Decision.deny r) ∧
    (∀ rs : List HookOutput, (∀ x ∈ rs, x = HookOutput.empty) →
      combineDecisions rs = Decision.allow) ∧
    (∀ (hs₁ : List (HookInput → HookOutput)) (hk : HookInput → HookOutput)
       (hs₂ : List (HookInput → HookOutput)) (e : HookInput) (r : String),
      (∀ g ∈ hs₁, g e = HookOutput.empty) → hk e = HookOutput.deny r →
      runChain (hs₁ ++ hk :: hs₂) e = (Decision.deny r, hs₁.length + 1)) ∧
    (∀ (ps₁ : List DangerousPattern) (p : DangerousPattern) (ps₂ : List DangerousPattern)
       (cmd : String),
      (∀ q ∈ ps₁, searchTest q.pattern cmd = false) → searchTest p.pattern cmd = true →
      checkDangerousCommandGo (ps₁ ++ p :: ps₂) cmd = ⟨true, some p.description⟩) := by
  refine ⟨?_, ?_, ?_, ?_⟩
  · intro rs₁ r rs₂ hall
    induction rs₁ with
    | nil => rfl
    | cons x xs ih =>
      have hx : x = HookOutput.empty := hall x (List.mem_cons_self x xs)
      subst hx
      exact ih (fun y hy => hall y (List.mem_cons_of_mem _ hy))
  · intro rs hall
    induction rs with
    | nil => rfl
    | cons x xs ih =>
      have hx : x = HookOutput.empty := hall x (List.mem_cons_self x xs)
      subst hx
      exact ih (fun y hy => hall y (List.mem_cons_of_mem _ hy))
  · intro hs₁ hk hs₂ e r hall hdeny
    induction hs₁ with
    | nil => simp [runChain, hdeny]
    | cons g gs ih =>
      have hg : g e = HookOutput.empty := hall g (List.mem_cons_self g gs)
      have ih' := ih (fun f hf => hall f (List.mem_cons_of_mem _ hf))
      simp [runChain, hg, ih']
  · intro ps₁ p ps₂ cmd hall hp
    induction ps₁ with
    | nil => simp [checkDangerousCommandGo, hp]
    | cons q qs ih =>
      have hq : searchTest q.pattern cmd = false := hall q (List.mem_cons_self q qs)
      have ih' := ih (fun q' hq' => hall q' (List.mem_cons_of_mem _ hq'))
      simp [checkDangerousCommandGo, hq, ih']

/-- C2 witness: the spec's `[allow, deny, allow]` chain invokes exactly two
hooks, and `"rm -rf /"` is reported with the first matching pattern's
description. -/
theorem firstDeny_shortCircuit_witness :
    combineDecisions [HookOutput.empty, HookOutput.deny "no", HookOutput.empty] =
      Decision.deny "no" ∧
    combineDecisions [HookOutput.empty, HookOutput.empty] = Decision.allow ∧
    runChain [fun _ => HookOutput.empty, fun _ => HookOutput.deny "no",
      fun _ => HookOutput.empty] (⟨"Bash", none⟩ : HookInput) = (Decision.deny "no", 2) ∧
    checkDangerousCommandGo DANGEROUS_PATTERNS "rm -rf /" =
      ⟨true, some "rm with absolute path"⟩ := by
  refine ⟨?_, ?_, ?_, ?_⟩
  · exact firstDeny_shortCircuit.1 [HookOutput.empty] "no" [HookOutput.empty] (by decide)
  · exact firstDeny_shortCircuit.2.1 [HookOutput.empty, HookOutput.empty] (by decide)
  · exact firstDeny_shortCircuit.2.2.1 [fun _ => HookOutput.empty]
      (fun _ => HookOutput.deny "no") [fun _ => HookOutput.empty] (⟨"Bash", none⟩ : HookInput) "no"
      (by intro g hg; rw [List.mem_singleton] at hg; subst hg; rfl) rfl
  · exact firstDeny_shortCircuit.2.2.2 [] rmPathPattern
      [rmRfPattern, rmdirPattern, chmod777Pattern, mkfsPattern, ddPattern,
       curlShPattern, wgetShPattern, sshKeysPattern, passwdPattern, shadowPattern,
       forkBombPattern, rawDevicePattern] "rm -rf /"
      (by intro q hq; exact absurd hq (List.not_mem_nil q)) (by decide)

/-- C7: a registration with matcher `"Write|Edit"` is resolved for tool
names `"Write"` and `"Edit"` but not `"Read"`; the matcher is an exact
regular-expression match against the whole tool name, so longer names such
as `"WriteFile"` or `"MyWrite"` are not matched either. -/
theorem writeEditMatcher_resolution :
    (∀ (regs : List HookRegistration) (r : HookRegistration),
      r ∈ regs → r.matcher = some writeEditMatcher →
        (r ∈ resolve regs "Write" ∧ r ∈ resolve regs "Edit" ∧ r ∉ resolve regs "Read")) ∧
    writeEditMatcher.rmatch ("Write").data = true ∧
    writeEditMatcher.rmatch ("Edit").data = true ∧
    writeEditMatcher.rmatch ("Read").data = false ∧
    writeEditMatcher.rmatch ("WriteFile").data = false ∧
    writeEditMatcher.rmatch ("MyWrite").data = false := by
  refine ⟨?_, by decide, by decide, by decide, by decide, by decide⟩
  intro regs r hr hm
  refine ⟨?_, ?_, ?_⟩
  · apply List.mem_filter.mpr
    refine ⟨hr, ?_⟩
    simp only [hm]
    decide
  · apply List.mem_filter.mpr
    refine ⟨hr, ?_⟩
    simp only [hm]
    decide
  · intro hmem
    have hp := (List.mem_filter.mp hmem).2
    simp only [hm] at hp
    exact absurd hp (by decide)

/-- C7 witness: the repository's own `"Write|Edit"` registration
(`fileWriteHook`, `index.ts` line 247). -/
theorem writeEditMatcher_resolution_witness :
    (⟨some writeEditMatcher, ["fileWriteHook"]⟩ : HookRegistration) ∈
      resolve hooksConfigPre "Write" ∧
    (⟨some writeEditMatcher, ["fileWriteHook"]⟩ : HookRegistration) ∈
      resolve hooksConfigPre "Edit" ∧
    (⟨some writeEditMatcher, ["fileWriteHook"]⟩ : HookRegistration) ∉
      resolve hooksConfigPre "Read" :=
  writeEditMatcher_resolution.1 hooksConfigPre ⟨some writeEditMatcher, ["fileWriteHook"]⟩
    (List.mem_cons_of_mem _ (List.mem_cons_self _ _)) rfl

/-- C8: a hook raising an unexpected failure resolves to a fail-closed DENY
with reason "hook execution failed"; the failure is logged, and the
dispatcher always resolves to an ALLOW/DENY decision — faults never
propagate to the calling runtime. -/
theorem hookFault_failClosed :
    (∀ (hs₁ : List (HookInput → Except String HookOutput))
       (hk : HookInput → Except String HookOutput)
       (hs₂ : List (HookInput → Except String HookOutput)) (e : HookInput) (msg : String),
      (∀ g ∈ hs₁, g e = Except.ok HookOutput.empty) → hk e = Except.error msg →
      dispatchPre (hs₁ ++ hk :: hs₂) e =
        (Decision.deny "hook execution failed", ["hook execution failed: " ++ msg])) ∧
    (∀ (hooks : List (HookInput → Except String HookOutput)) (e : HookInput),
      (dispatchPre hooks e).1 = Decision.allow ∨
        ∃ r, (dispatchPre hooks e).1 = Decision.deny r) := by
  constructor
  · intro hs₁ hk hs₂ e msg hall herr
    induction hs₁ with
    | nil => simp [dispatchPre, herr]
    | cons g gs ih =>
      have hg : g e = Except.ok HookOutput.empty := hall g (List.mem_cons_self g gs)
      have ih' := ih (fun f hf => hall f (List.mem_cons_of_mem _ hf))
      simp [dispatchPre, hg, ih']
  · intro hooks e
    cases hd : (dispatchPre hooks e).1 with
    | allow => exact Or.inl rfl
    | deny r => exact Or.inr ⟨r, rfl⟩

/-- C8 witness. -/
theorem hookFault_failClosed_witness :
    dispatchPre [fun _ => Except.ok HookOutput.empty, fun _ => Except.error "boom"]
      (⟨"Bash", none⟩ : HookInput) =
      (Decision.deny "hook execution failed", ["hook execution failed: " ++ "boom"]) :=
  hookFault_failClosed.1 [fun _ => Except.ok HookOutput.empty] (fun _ => Except.error "boom")
    [] ⟨"Bash", none⟩ "boom"
    (by intro g hg; rw [List.mem_singleton] at hg; subst hg; rfl) rfl

/-- C9: dangerous-command matching is unanchored substring matching: the
command is blocked exactly when some pattern of `DANGEROUS_PATTERNS`
matches some substring — including inside quoted text, as in
`echo 'rm -rf /'` — and the result is `{blocked: false}` with no reason
exactly when no pattern matches anywhere. -/
theorem dangerousMatch_anywhere (cmd : String) :
    ((checkDangerousCommand cmd).blocked = true ↔
      ∃ p ∈ DANGEROUS_PATTERNS, ∃ t m u, cmd.data = t ++ m ++ u ∧
        p.pattern.rmatch m = true) ∧
    (checkDangerousCommand cmd = ⟨false, none⟩ ↔
      ∀ p ∈ DANGEROUS_PATTERNS, ∀ t m u, cmd.data = t ++ m ++ u →
        p.pattern.rmatch m = false) ∧
    (checkDangerousCommand "echo \x27rm -rf /\x27").blocked = true := by
  refine ⟨?_, ?_, by decide⟩
  · rw [checkDangerousCommand, checkGo_blocked_iff]
    constructor
    · rintro ⟨p, hp, hmatch⟩
      obtain ⟨t, m, u, hdec, hm⟩ := (searchTest_iff _ _).mp hmatch
      exact ⟨p, hp, t, m, u, hdec, hm⟩
    · rintro ⟨p, hp, t, m, u, hdec, hm⟩
      exact ⟨p, hp, (searchTest_iff _ _).mpr ⟨t, m, u, hdec, hm⟩⟩
  · rw [checkDangerousCommand, checkGo_clean_iff]
    constructor
    · intro hall p hp t m u hdec
      cases hb : p.pattern.rmatch m with
      | false => rfl
      | true =>
        have hst : searchTest p.pattern cmd = true :=
          (searchTest_iff _ _).mpr ⟨t, m, u, hdec, hb⟩
        rw [hall p hp] at hst
        exact Bool.noConfusion hst
    · intro hall p hp
      cases hst : searchTest p.pattern cmd with
      | false => rfl
      | true =>
        obtain ⟨t, m, u, hdec, hm⟩ := (searchTest_iff _ _).mp hst
        rw [hall p hp t m u hdec] at hm
        exact Bool.noConfusion hm

theorem step_counts (s : Summary) (e : AuditEntry) (t : String) :
    (mapGet (summarizeStep s e).toolCounts t).getD 0 =
      (mapGet s.toolCounts t).getD 0 +
        (if e.phase = Phase.post ∧ e.toolName = t then 1 else 0) := by
  unfold summarizeStep
  by_cases hph : e.phase = Phase.post
  · by_cases ht : e.toolName = t
    · subst ht
      by_cases hbl : e.blocked <;>
        simp [hph, hbl, mapGet_mapSet_self]
    · by_cases hbl : e.blocked <;>
        simp [hph, ht, hbl, mapGet_mapSet_ne s.toolCounts e.toolName t _ ht]
  · by_cases hbl : e.blocked <;> simp [hph, hbl]

theorem step_total (s : Summary) (e : AuditEntry) :
    (summarizeStep s e).totalDuration =
      s.totalDuration + (if e.phase = Phase.post then e.duration.getD 0 else 0) := by
  unfold summarizeStep
  by_cases hph : e.phase = Phase.post
  · rcases hd : e.duration with _ | d
    · by_cases hbl : e.blocked <;> simp [hph, hd, hbl]
    · by_cases hz : d = 0
      · by_cases hbl : e.blocked <;> simp [hph, hd, hz, hbl]
      · by_cases hbl : e.blocked <;> simp [hph, hd, hz, hbl]
  · by_cases hbl : e.blocked <;> simp [hph, hbl]

theorem step_blocked (s : Summary) (e : AuditEntry) :
    (summarizeStep s e).blockedCount =
      s.blockedCount + (if e.blocked then 1 else 0) := by
  unfold summarizeStep
  by_cases hph : e.phase = Phase.post <;> by_cases hbl : e.blocked <;> simp [hph, hbl]

theorem foldl_counts (trail : List AuditEntry) : ∀ (s : Summary) (t : String),
    (mapGet (trail.foldl summarizeStep s).toolCounts t).getD 0 =
      (mapGet s.toolCounts t).getD 0 +
        trail.countP (fun e => decide (e.phase = Phase.post ∧ e.toolName = t)) := by
  induction trail with
  | nil => intro s t; simp
  | cons e tr ih =>
    intro s t
    rw [List.foldl_cons, ih, step_counts, List.countP_cons]
    by_cases hp : e.phase = Phase.post ∧ e.toolName = t
    · simp only [hp, if_true, decide_eq_true_eq]
      simp [hp]
      omega
    · simp only [hp, if_false]
      simp [hp]

theorem foldl_total (trail : List AuditEntry) : ∀ s : Summary,
    (trail.foldl summarizeStep s).totalDuration =
      s.totalDuration +
        ((trail.filter (fun e => decide (e.phase = Phase.post))).map
          (fun e => e.duration.getD 0)).sum := by
  induction trail with
  | nil => intro s; simp
  | cons e tr ih =>
    intro s
    rw [List.foldl_cons, ih, step_total, List.filter_cons]
    by_cases hp : e.phase = Phase.post
    · simp [hp]
      omega
    · simp [hp]

theorem foldl_blocked (trail : List AuditEntry) : ∀ s : Summary,
    (trail.foldl summarizeStep s).blockedCount =
      s.blockedCount + trail.countP (fun e => e.blocked) := by
  induction trail with
  | nil => intro s; simp
  | cons e tr ih =>
    intro s
    rw [List.foldl_cons, ih, step_blocked, List.countP_cons]
    by_cases hb : e.blocked
    · simp [hb]
      omega
    · simp [hb]

/-- C4: the audit summary is a pure function of the audit log —
per-tool counts and total duration are computed from the POST entries
alone (the total counting only truthy durations), the blocked count from
the truthy `blocked` flag of all entries — so two `summarize` calls on the
same log without an intervening `record` yield identical aggregates. -/
theorem summarize_characterization (trail : List AuditEntry) :
    (∀ t : String, (mapGet (summarize trail).toolCounts t).getD 0 =
        trail.countP (fun e => decide (e.phase = Phase.post ∧ e.toolName = t))) ∧
    (summarize trail).totalDuration =
      ((trail.filter (fun e => decide (e.phase = Phase.post))).map
        (fun e => e.duration.getD 0)).sum ∧
    (summarize trail).blockedCount = trail.countP (fun e => e.blocked) ∧
    summarize trail = summarize trail := by
  refine ⟨?_, ?_, ?_, rfl⟩
  · intro t
    rw [summarize, foldl_counts]
    simp [mapGet]
  · rw [summarize, foldl_total]
    simp
  · rw [summarize, foldl_blocked]
    simp
